import Mathlib

namespace Acm

variable {σ : Type}

/-- One byte of the input stream; out-of-range reads give zero and values are reduced
mod 256, so the readers below are total. -/
def byteAt (bs : List Nat) (i : Nat) : Nat := (bs.getD i 0) % 256

/-- Little-endian 16-bit read at a byte offset, as the stream performs it after
setEndianness LITTLE. -/
def le16 (bs : List Nat) (off : Nat) : Nat := byteAt bs off + 256 * byteAt bs (off + 1)

/-- Little-endian 32-bit read at a byte offset. -/
def le32 (bs : List Nat) (off : Nat) : Nat := le16 bs off + 65536 * le16 bs (off + 2)

/-- Reinterpretation of an unsigned 16-bit value as a signed int16_t, matching the raw
readBytes of two little-endian bytes into an int16_t. -/
def toInt16 (n : Nat) : Int :=
  if n % 65536 < 32768 then ((n % 65536 : Nat) : Int) else ((n % 65536 : Nat) : Int) - 65536

/-- Reinterpretation of an unsigned 32-bit value as a signed int32_t, matching the
assignment of the uint32_t sample count to the int32_t fields. -/
def toInt32 (n : Nat) : Int :=
  if n % 4294967296 < 2147483648 then ((n % 4294967296 : Nat) : Int)
  else ((n % 4294967296 : Nat) : Int) - 4294967296

/-- Truncation of a signed integer to a signed 16-bit value, matching the cast to short
in readSamples (two's-complement truncation). -/
def toShort (v : Int) : Int :=
  let m := v % 65536
  if m < 32768 then m else m - 65536

/-- Modelled from the spec: the fixed 4-byte magic constant compared against the header
signature at open time. It is declared in Format/Acm/General.h, which is not among the
sources here; none of the claims depends on its particular value. -/
def IP_ACM_SIG : Nat := 0x01032897

/-- Size of the header in bytes; the bitstream payload starts immediately after it. -/
def HEADER_SIZE : Nat := 14

/-- Modelled from the spec: the outcome of one getOneBlock call of the BitstreamUnpacker
(ValueUnpacker, not among the sources here) — a success flag, the evolved adaptive
state, the new stream position, and the contents the call leaves in the block buffer.
Per the spec the unpacked values depend only on the adaptive state and the stream, so
the buffer contents are produced by the call rather than transformed. -/
structure UnpackOut (σ : Type) where
  ok : Bool
  state : σ
  pos : Nat
  buf : List Int
deriving DecidableEq

/-- Modelled from the spec: the BitstreamUnpacker interface — the post-init adaptive
state (which reset restores), whether init succeeds, and getOneBlock as a function of
the adaptive state and the stream position. -/
structure Unpacker (σ : Type) where
  initState : σ
  initOk : Bool
  getOneBlock : σ → Nat → UnpackOut σ

/-- Modelled from the spec: the Decoder interface — whether init succeeds, and the
in-place hierarchical reconstruction decodeData as a pure function of the block buffer
and the subblock width (per the spec the decoder keeps only per-level scratch state). -/
structure DecoderM where
  initOk : Bool
  decodeData : List Int → Int → List Int

/-- The state of Format::Acm::File: header-derived fields, the streaming counters, the
reconstructed block buffer together with the read cursor into it (the values pointer as
an index), the underlying stream position, and the unpacker's adaptive state. Fields of
C type int32_t are modelled as Int. -/
structure AcmState (σ : Type) where
  samples : Int
  channels : Int
  bitrate : Int
  levels : Int
  subblocks : Int
  blockSize : Int
  samplesLeft : Int
  samplesReady : Int
  block : List Int
  valuesIdx : Nat
  streamPos : Nat
  ustate : σ
deriving DecidableEq

/-- The buffer resize performed by the constructor, i.e. the source's
block.resize(blockSize) on a std::vector whose resize takes a size_t. A non-negative
int32 size value-initializes that many slots; a negative one converts to a size_t far
beyond the vector's max_size, so resize throws std::length_error (the string here
stands in for the library's implementation-defined message) and the constructor fails. -/
def vectorResize (n : Int) : Except String (List Int) :=
  if n < 0 then Except.error "vector::resize - length_error"
  else Except.ok (List.replicate n.toNat 0)

/-- The constructor File::File. It reads the 14-byte little-endian header (4-byte
signature, 4-byte sample count, 2-byte channels, 2-byte rate, then two raw bytes into an
int16_t tmpword; the field widths follow the container layout since Format/Acm/File.h is
not among the sources), splits the packed word — subblocks gets tmpword shifted right by
4 arithmetically, levels gets tmpword masked with 15, which is the word mod 16 — checks
the signature, derives blockSize, resizes the block buffer to it (which is what fails,
with length_error, when blockSize is negative) and then initializes the unpacker and the
decoder. A thrown exception is modelled as Except.error carrying the exception
message. -/
def acmOpen (U : Unpacker σ) (D : DecoderM) (bytes : List Nat) : Except String (AcmState σ) :=
  let w := le16 bytes 12
  let tmpword : Int := toInt16 w
  let subblocks : Int := tmpword >>> (4 : Nat)
  let levels : Int := ((w % 16 : Nat) : Int)
  if le32 bytes 0 ≠ IP_ACM_SIG then
    Except.error "Not an ACM file - invalid signature"
  else
    let samples := toInt32 (le32 bytes 4)
    let blockSize : Int := (2 ^ (w % 16) : Int) * subblocks
    match vectorResize blockSize with
    | Except.error e => Except.error e
    | Except.ok blk =>
      if U.initOk = false then Except.error "Cannot create or init unpacker"
      else if D.initOk = false then Except.error "Cannot create or init decoder"
      else Except.ok {
        samples := samples
        channels := ((le16 bytes 8 : Nat) : Int)
        bitrate := ((le16 bytes 10 : Nat) : Int)
        levels := levels
        subblocks := subblocks
        blockSize := blockSize
        samplesLeft := samples
        samplesReady := 0
        block := blk
        valuesIdx := 0
        streamPos := HEADER_SIZE
        ustate := U.initState }

/-- One emission step of the readSamples loop: the current block slot, shifted right
arithmetically by levels bits and truncated to a signed 16-bit value; the values cursor
advances and one ready sample is consumed. -/
def emitOne (s : AcmState σ) : Int × AcmState σ :=
  (toShort ((s.block.getD s.valuesIdx 0) >>> s.levels.toNat),
   { s with valuesIdx := s.valuesIdx + 1, samplesReady := s.samplesReady - 1 })

/-- File::_makeNewSamples: ask the unpacker for one block; on success run decodeData on
that block buffer with subblocks as the width, point the values cursor at the start, set
samplesReady to blockSize capped at samplesLeft and deduct it from samplesLeft; on
failure return 0 leaving the streaming counters untouched. -/
def makeNewSamples (U : Unpacker σ) (D : DecoderM) (s : AcmState σ) : Bool × AcmState σ :=
  let r := U.getOneBlock s.ustate s.streamPos
  if r.ok then
    let ready := if s.blockSize > s.samplesLeft then s.samplesLeft else s.blockSize
    (true, { s with
      ustate := r.state
      streamPos := r.pos
      block := D.decodeData r.buf s.subblocks
      valuesIdx := 0
      samplesReady := ready
      samplesLeft := s.samplesLeft - ready })
  else
    (false, { s with ustate := r.state, streamPos := r.pos, block := r.buf })

/-- File::readSamples: produce up to count samples, refilling from the unpacker whenever
the current block is drained; it stops early when samplesLeft hits zero or the unpacker
fails. The emitted samples are returned in order (their number is the size_t result of
the original), together with the final state. -/
def readSamples (U : Unpacker σ) (D : DecoderM) : Nat → AcmState σ → List Int × AcmState σ
  | 0, s => ([], s)
  | n + 1, s =>
    if s.samplesReady = 0 then
      if s.samplesLeft = 0 then ([], s)
      else
        match makeNewSamples U D s with
        | (true, s1) =>
          let e := emitOne s1
          let rest := readSamples U D n e.2
          (e.1 :: rest.1, rest.2)
        | (false, s1) => ([], s1)
    else
      let e := emitOne s
      let rest := readSamples U D n e.2
      (e.1 :: rest.1, rest.2)

/-- File::rewind: seek the stream back to the first payload byte, drop any undelivered
samples, restore the full remaining count, and reset the unpacker to its post-init
adaptive state. -/
def rewind (U : Unpacker σ) (s : AcmState σ) : AcmState σ :=
  { s with streamPos := HEADER_SIZE, samplesReady := 0, samplesLeft := s.samples,
           ustate := U.initState }

/-- Header-derived fields of the state, which no operation after construction writes. -/
def core (s : AcmState σ) : Int × Int × Int × Int × Int × Int :=
  (s.samples, s.channels, s.bitrate, s.levels, s.subblocks, s.blockSize)

/-- A concrete unpacker instance for witnesses: it always succeeds, counts its calls in
its state, and leaves a zeroed 32-slot buffer. -/
def unpAlways : Unpacker Nat :=
  { initState := 0, initOk := true,
    getOneBlock := fun u p => { ok := true, state := u + 1, pos := p, buf := List.replicate 32 0 } }

/-- A concrete unpacker instance for witnesses: its getOneBlock always fails. -/
def unpNever : Unpacker Nat :=
  { initState := 0, initOk := true,
    getOneBlock := fun u p => { ok := false, state := u, pos := p, buf := [] } }

/-- A concrete decoder instance for witnesses: decodeData leaves the buffer as is. -/
def decId : DecoderM := { initOk := true, decodeData := fun b _ => b }

/-- Header bytes of the concrete scenario of the spec: valid signature, samples = 50,
channels = 1, rate = 22050, packed geometry word 0x0043 giving levels = 3, subblocks = 4
and blockSize = 32. -/
def bytes9 : List Nat :=
  [0x97, 0x28, 0x03, 0x01, 50, 0, 0, 0, 1, 0, 0x22, 0x56, 0x43, 0x00]

/-- The state File::File builds from bytes9 (with the witness unpacker and decoder). -/
def st9 : AcmState Nat :=
  { samples := 50, channels := 1, bitrate := 22050, levels := 3, subblocks := 4,
    blockSize := 32, samplesLeft := 50, samplesReady := 0,
    block := List.replicate 32 0, valuesIdx := 0, streamPos := HEADER_SIZE, ustate := 0 }

variable (U : Unpacker σ) (D : DecoderM)

theorem stateExt {s t : AcmState σ} (h1 : s.samples = t.samples) (h2 : s.channels = t.channels)
    (h3 : s.bitrate = t.bitrate) (h4 : s.levels = t.levels) (h5 : s.subblocks = t.subblocks)
    (h6 : s.blockSize = t.blockSize) (h7 : s.samplesLeft = t.samplesLeft)
    (h8 : s.samplesReady = t.samplesReady) (h9 : s.block = t.block)
    (h10 : s.valuesIdx = t.valuesIdx) (h11 : s.streamPos = t.streamPos)
    (h12 : s.ustate = t.ustate) : s = t := by
  cases s; cases t
  simp only [AcmState.mk.injEq]
  exact ⟨h1, h2, h3, h4, h5, h6, h7, h8, h9, h10, h11, h12⟩

theorem core_fields {s t : AcmState σ} (h : core s = core t) :
    s.samples = t.samples ∧ s.channels = t.channels ∧ s.bitrate = t.bitrate ∧
    s.levels = t.levels ∧ s.subblocks = t.subblocks ∧ s.blockSize = t.blockSize := by
  simp only [core, Prod.mk.injEq] at h
  tauto

theorem ternary_min (a b : Int) : (if a > b then b else a) = min a b := by
  rcases le_or_lt a b with h | h
  · rw [if_neg (not_lt.mpr h), min_eq_left h]
  · rw [if_pos h, min_eq_right h.le]

theorem makeNewSamples_flag (s : AcmState σ) :
    (makeNewSamples U D s).1 = (U.getOneBlock s.ustate s.streamPos).ok := by
  rcases hok : (U.getOneBlock s.ustate s.streamPos).ok with _ | _
  · simp [makeNewSamples, hok]
  · simp [makeNewSamples, hok]

theorem makeNewSamples_false {s s1 : AcmState σ}
    (hm : makeNewSamples U D s = (false, s1)) :
    core s1 = core s ∧ s1.samplesReady = s.samplesReady ∧ s1.samplesLeft = s.samplesLeft ∧
    s1.valuesIdx = s.valuesIdx ∧
    s1.ustate = (U.getOneBlock s.ustate s.streamPos).state ∧
    s1.streamPos = (U.getOneBlock s.ustate s.streamPos).pos ∧
    s1.block = (U.getOneBlock s.ustate s.streamPos).buf := by
  have hok : (U.getOneBlock s.ustate s.streamPos).ok = false := by
    have hfl := makeNewSamples_flag U D s
    rw [hm] at hfl
    exact hfl.symm
  simp only [makeNewSamples, hok, Bool.false_eq_true, if_false] at hm
  injection hm with h1 h2
  subst h2
  exact ⟨rfl, rfl, rfl, rfl, rfl, rfl, rfl⟩

theorem makeNewSamples_true {s s1 : AcmState σ}
    (hm : makeNewSamples U D s = (true, s1)) :
    core s1 = core s ∧
    s1.samplesReady = min s.blockSize s.samplesLeft ∧
    s1.samplesLeft = s.samplesLeft - min s.blockSize s.samplesLeft ∧
    s1.valuesIdx = 0 ∧
    s1.block = D.decodeData (U.getOneBlock s.ustate s.streamPos).buf s.subblocks ∧
    s1.ustate = (U.getOneBlock s.ustate s.streamPos).state ∧
    s1.streamPos = (U.getOneBlock s.ustate s.streamPos).pos := by
  have hok : (U.getOneBlock s.ustate s.streamPos).ok = true := by
    have hfl := makeNewSamples_flag U D s
    rw [hm] at hfl
    exact hfl.symm
  simp only [makeNewSamples, hok, if_true] at hm
  injection hm with h1 h2
  subst h2
  refine ⟨rfl, ?_, ?_, rfl, rfl, rfl, rfl⟩
  · exact (ternary_min _ _)
  · rw [ternary_min]

theorem readSamples_zero (s : AcmState σ) : readSamples U D 0 s = ([], s) := rfl

theorem readSamples_succ_emit (m : Nat) (s : AcmState σ) (h : ¬ s.samplesReady = 0) :
    readSamples U D (m + 1) s =
      ((emitOne s).1 :: (readSamples U D m (emitOne s).2).1,
       (readSamples U D m (emitOne s).2).2) := by
  rw [readSamples, if_neg h]

theorem readSamples_succ_eos (m : Nat) (s : AcmState σ) (h1 : s.samplesReady = 0)
    (h2 : s.samplesLeft = 0) : readSamples U D (m + 1) s = ([], s) := by
  rw [readSamples, if_pos h1, if_pos h2]

theorem readSamples_succ_fail (m : Nat) {s s1 : AcmState σ} (h1 : s.samplesReady = 0)
    (h2 : ¬ s.samplesLeft = 0) (hm : makeNewSamples U D s = (false, s1)) :
    readSamples U D (m + 1) s = ([], s1) := by
  rw [readSamples, if_pos h1, if_neg h2, hm]

theorem readSamples_succ_refill (m : Nat) {s s1 : AcmState σ} (h1 : s.samplesReady = 0)
    (h2 : ¬ s.samplesLeft = 0) (hm : makeNewSamples U D s = (true, s1)) :
    readSamples U D (m + 1) s =
      ((emitOne s1).1 :: (readSamples U D m (emitOne s1).2).1,
       (readSamples U D m (emitOne s1).2).2) := by
  rw [readSamples, if_pos h1, if_neg h2, hm]

theorem core_emitOne (s : AcmState σ) : core (emitOne s).2 = core s := rfl

theorem readSamples_core (n : Nat) (s : AcmState σ) :
    core (readSamples U D n s).2 = core s := by
  induction n generalizing s with
  | zero => rw [readSamples_zero]
  | succ m ih =>
    by_cases h1 : s.samplesReady = 0
    · by_cases h2 : s.samplesLeft = 0
      · rw [readSamples_succ_eos U D m s h1 h2]
      · rcases hm : makeNewSamples U D s with ⟨b, s1⟩
        cases b
        · rw [readSamples_succ_fail U D m h1 h2 hm]
          exact (makeNewSamples_false U D hm).1
        · rw [readSamples_succ_refill U D m h1 h2 hm]
          dsimp only
          rw [ih, core_emitOne]
          exact (makeNewSamples_true U D hm).1
    · rw [readSamples_succ_emit U D m s h1]
      dsimp only
      rw [ih, core_emitOne]

theorem readSamples_conservation (n : Nat) (s : AcmState σ) :
    (((readSamples U D n s).1.length : Int) + (readSamples U D n s).2.samplesReady
      + (readSamples U D n s).2.samplesLeft) = s.samplesReady + s.samplesLeft := by
  induction n generalizing s with
  | zero => rw [readSamples_zero]; simp
  | succ m ih =>
    by_cases h1 : s.samplesReady = 0
    · by_cases h2 : s.samplesLeft = 0
      · rw [readSamples_succ_eos U D m s h1 h2]; simp
      · rcases hm : makeNewSamples U D s with ⟨b, s1⟩
        cases b
        · rw [readSamples_succ_fail U D m h1 h2 hm]
          obtain ⟨-, hr, hl, -⟩ := makeNewSamples_false U D hm
          simp [hr, hl]
        · rw [readSamples_succ_refill U D m h1 h2 hm]
          obtain ⟨-, hr, hl, -⟩ := makeNewSamples_true U D hm
          have hrec := ih (emitOne s1).2
          have he1 : (emitOne s1).2.samplesReady = s1.samplesReady - 1 := rfl
          have he2 : (emitOne s1).2.samplesLeft = s1.samplesLeft := rfl
          dsimp only
          rw [List.length_cons]
          rw [he1, he2, hr, hl] at hrec
          push_cast
          omega
    · rw [readSamples_succ_emit U D m s h1]
      have hrec := ih (emitOne s).2
      have he1 : (emitOne s).2.samplesReady = s.samplesReady - 1 := rfl
      have he2 : (emitOne s).2.samplesLeft = s.samplesLeft := rfl
      dsimp only
      rw [List.length_cons]
      rw [he1, he2] at hrec
      push_cast
      omega

/-- Well-formedness of a streaming state: a positive block size and non-negative
counters; it holds for any state constructed from a well-formed header and is preserved
by every readSamples call. -/
def Inv (s : AcmState σ) : Prop :=
  0 < s.blockSize ∧ 0 ≤ s.samplesReady ∧ 0 ≤ s.samplesLeft

theorem readSamples_inv (n : Nat) (s : AcmState σ) (h : Inv s) :
    Inv (readSamples U D n s).2 := by
  induction n generalizing s with
  | zero => rw [readSamples_zero]; exact h
  | succ m ih =>
    obtain ⟨hb, hr0, hl0⟩ := h
    by_cases h1 : s.samplesReady = 0
    · by_cases h2 : s.samplesLeft = 0
      · rw [readSamples_succ_eos U D m s h1 h2]; exact ⟨hb, hr0, hl0⟩
      · rcases hm : makeNewSamples U D s with ⟨b, s1⟩
        cases b
        · rw [readSamples_succ_fail U D m h1 h2 hm]
          obtain ⟨hc, hr, hl, -⟩ := makeNewSamples_false U D hm
          obtain ⟨-, -, -, -, -, hbs⟩ := core_fields hc
          exact ⟨hbs ▸ hb, hr ▸ hr0, hl ▸ hl0⟩
        · rw [readSamples_succ_refill U D m h1 h2 hm]
          obtain ⟨hc, hr, hl, -⟩ := makeNewSamples_true U D hm
          obtain ⟨-, -, -, -, -, hbs⟩ := core_fields hc
          dsimp only
          apply ih
          have hbe : (emitOne s1).2.blockSize = s1.blockSize := rfl
          refine ⟨by rw [hbe, hbs]; exact hb, ?_, ?_⟩
          · have he1 : (emitOne s1).2.samplesReady = s1.samplesReady - 1 := rfl
            rw [he1, hr]
            omega
          · have he2 : (emitOne s1).2.samplesLeft = s1.samplesLeft := rfl
            rw [he2, hl]
            omega
    · rw [readSamples_succ_emit U D m s h1]
      dsimp only
      apply ih
      refine ⟨hb, ?_, hl0⟩
      have he1 : (emitOne s).2.samplesReady = s.samplesReady - 1 := rfl
      rw [he1]
      omega

theorem readSamples_len_total (n : Nat) (s : AcmState σ) (h : Inv s)
    (htot : ∀ u p, (U.getOneBlock u p).ok = true) :
    ((readSamples U D n s).1.length : Int) = min (n : Int) (s.samplesReady + s.samplesLeft) := by
  induction n generalizing s with
  | zero =>
    rw [readSamples_zero]
    obtain ⟨-, hr0, hl0⟩ := h
    simp
    omega
  | succ m ih =>
    obtain ⟨hb, hr0, hl0⟩ := h
    by_cases h1 : s.samplesReady = 0
    · by_cases h2 : s.samplesLeft = 0
      · rw [readSamples_succ_eos U D m s h1 h2]
        simp [h1, h2]
        omega
      · rcases hm : makeNewSamples U D s with ⟨b, s1⟩
        cases b
        · have := makeNewSamples_flag U D s
          rw [hm, htot] at this
          exact absurd this (by simp)
        · rw [readSamples_succ_refill U D m h1 h2 hm]
          obtain ⟨hc, hr, hl, -⟩ := makeNewSamples_true U D hm
          obtain ⟨-, -, -, -, -, hbs⟩ := core_fields hc
          have he1 : (emitOne s1).2.samplesReady = s1.samplesReady - 1 := rfl
          have he2 : (emitOne s1).2.samplesLeft = s1.samplesLeft := rfl
          have hbe : (emitOne s1).2.blockSize = s1.blockSize := rfl
          have hrec := ih (emitOne s1).2
            ⟨by rw [hbe, hbs]; exact hb,
             by rw [he1, hr]; omega, by rw [he2, hl]; omega⟩
          dsimp only
          rw [List.length_cons]
          rw [he1, he2, hr, hl] at hrec
          push_cast
          omega
    · rw [readSamples_succ_emit U D m s h1]
      have he1 : (emitOne s).2.samplesReady = s.samplesReady - 1 := rfl
      have he2 : (emitOne s).2.samplesLeft = s.samplesLeft := rfl
      have hrec := ih (emitOne s).2 ⟨hb, by rw [he1]; omega, by rw [he2]; exact hl0⟩
      dsimp only
      rw [List.length_cons]
      rw [he1, he2] at hrec
      push_cast
      omega

/-- Observational equivalence of two streaming states: all fields agree except possibly
the block buffer and the read cursor into it, which must agree as soon as undelivered
samples remain. Two such states are indistinguishable through readSamples, because a
drained block is always refilled before it is read again. -/
def obsEq (s t : AcmState σ) : Prop :=
  core s = core t ∧ s.samplesLeft = t.samplesLeft ∧ s.samplesReady = t.samplesReady ∧
  s.streamPos = t.streamPos ∧ s.ustate = t.ustate ∧
  (s.samplesReady ≠ 0 → s.block = t.block ∧ s.valuesIdx = t.valuesIdx)

theorem obsEq_refl (s : AcmState σ) : obsEq s s :=
  ⟨rfl, rfl, rfl, rfl, rfl, fun _ => ⟨rfl, rfl⟩⟩

theorem obsEq_eq {s t : AcmState σ} (h : obsEq s t) (hr : s.samplesReady ≠ 0) : s = t := by
  obtain ⟨hc, hl, hready, hpos, hu, hblk⟩ := h
  obtain ⟨h1, h2, h3, h4, h5, h6⟩ := core_fields hc
  obtain ⟨hb, hi⟩ := hblk hr
  exact stateExt h1 h2 h3 h4 h5 h6 hl hready hb hi hpos hu

theorem obsEq_readSamples (n : Nat) {s t : AcmState σ} (h : obsEq s t) :
    (readSamples U D n s).1 = (readSamples U D n t).1 ∧
    obsEq (readSamples U D n s).2 (readSamples U D n t).2 := by
  by_cases hr : s.samplesReady = 0
  · have hrt : t.samplesReady = 0 := by rw [← h.2.2.1]; exact hr
    cases n with
    | zero =>
      rw [readSamples_zero, readSamples_zero]
      exact ⟨rfl, h⟩
    | succ m =>
      by_cases hl : s.samplesLeft = 0
      · have hlt : t.samplesLeft = 0 := by rw [← h.2.1]; exact hl
        rw [readSamples_succ_eos U D m s hr hl, readSamples_succ_eos U D m t hrt hlt]
        exact ⟨rfl, h⟩
      · have hlt : ¬ t.samplesLeft = 0 := by rw [← h.2.1]; exact hl
        have hgb : U.getOneBlock s.ustate s.streamPos = U.getOneBlock t.ustate t.streamPos := by
          rw [h.2.2.2.2.1, h.2.2.2.1]
        rcases hm1 : makeNewSamples U D s with ⟨b1, s1⟩
        rcases hm2 : makeNewSamples U D t with ⟨b2, t1⟩
        have hb1 : b1 = (U.getOneBlock s.ustate s.streamPos).ok := by
          have := makeNewSamples_flag U D s
          rw [hm1] at this
          exact this
        have hb2 : b2 = (U.getOneBlock s.ustate s.streamPos).ok := by
          have := makeNewSamples_flag U D t
          rw [hm2, ← hgb] at this
          exact this
        rcases hok : (U.getOneBlock s.ustate s.streamPos).ok with _ | _
        · have hb1f : b1 = false := by rw [hb1, hok]
          have hb2f : b2 = false := by rw [hb2, hok]
          subst hb1f
          subst hb2f
          rw [readSamples_succ_fail U D m hr hl hm1, readSamples_succ_fail U D m hrt hlt hm2]
          obtain ⟨hcs, hrs, hls, -, hus, hps, hbs⟩ := makeNewSamples_false U D hm1
          obtain ⟨hct, hrt1, hlt1, -, hut, hpt, hbt⟩ := makeNewSamples_false U D hm2
          refine ⟨rfl, ?_, ?_, ?_, ?_, ?_, ?_⟩
          · rw [hcs, hct, h.1]
          · rw [hls, hlt1, h.2.1]
          · rw [hrs, hrt1, h.2.2.1]
          · rw [hps, hpt, hgb]
          · rw [hus, hut, hgb]
          · intro hne
            rw [hrs] at hne
            exact absurd hr hne
        · have hb1t : b1 = true := by rw [hb1, hok]
          have hb2t : b2 = true := by rw [hb2, hok]
          subst hb1t
          subst hb2t
          have hst : s1 = t1 := by
            obtain ⟨hcs, hrs, hls, his, hbs, hus, hps⟩ := makeNewSamples_true U D hm1
            obtain ⟨hct, hrt1, hlt1, hit, hbt, hut, hpt⟩ := makeNewSamples_true U D hm2
            obtain ⟨c1s, c2s, c3s, c4s, c5s, c6s⟩ := core_fields hcs
            obtain ⟨c1t, c2t, c3t, c4t, c5t, c6t⟩ := core_fields hct
            obtain ⟨e1, e2, e3, e4, e5, e6⟩ := core_fields h.1
            refine stateExt ?_ ?_ ?_ ?_ ?_ ?_ ?_ ?_ ?_ ?_ ?_ ?_
            · rw [c1s, e1, ← c1t]
            · rw [c2s, e2, ← c2t]
            · rw [c3s, e3, ← c3t]
            · rw [c4s, e4, ← c4t]
            · rw [c5s, e5, ← c5t]
            · rw [c6s, e6, ← c6t]
            · rw [hls, hlt1, e6, h.2.1]
            · rw [hrs, hrt1, e6, h.2.1]
            · rw [hbs, hbt, hgb, e5]
            · rw [his, hit]
            · rw [hps, hpt, hgb]
            · rw [hus, hut, hgb]
          subst hst
          rw [readSamples_succ_refill U D m hr hl hm1, readSamples_succ_refill U D m hrt hlt hm2]
          exact ⟨rfl, obsEq_refl _⟩
  · have hst : s = t := obsEq_eq h hr
    subst hst
    exact ⟨rfl, obsEq_refl _⟩

/-- Successful construction determines the whole initial state from the header bytes;
it requires non-degenerate geometry (a non-negative subblocks value), since otherwise
the buffer resize throws. -/
theorem acmOpen_ok_of (bytes : List Nat) (hsig : le32 bytes 0 = IP_ACM_SIG)
    (hU : U.initOk = true) (hD : D.initOk = true)
    (hsb : 0 ≤ toInt16 (le16 bytes 12) >>> (4 : Nat)) :
    acmOpen U D bytes = Except.ok
      { samples := toInt32 (le32 bytes 4)
        channels := ((le16 bytes 8 : Nat) : Int)
        bitrate := ((le16 bytes 10 : Nat) : Int)
        levels := ((le16 bytes 12 % 16 : Nat) : Int)
        subblocks := toInt16 (le16 bytes 12) >>> (4 : Nat)
        blockSize := (2 ^ (le16 bytes 12 % 16) : Int) * (toInt16 (le16 bytes 12) >>> (4 : Nat))
        samplesLeft := toInt32 (le32 bytes 4)
        samplesReady := 0
        block := List.replicate
          ((2 ^ (le16 bytes 12 % 16) : Int) * (toInt16 (le16 bytes 12) >>> (4 : Nat))).toNat 0
        valuesIdx := 0
        streamPos := HEADER_SIZE
        ustate := U.initState } := by
  have hbs : ¬ ((2 ^ (le16 bytes 12 % 16) : Int) * (toInt16 (le16 bytes 12) >>> (4 : Nat)) < 0) := by
    have hp : (0 : Int) < 2 ^ (le16 bytes 12 % 16) := pow_pos (by norm_num) _
    exact not_lt.mpr (mul_nonneg hp.le hsb)
  simp [acmOpen, vectorResize, hsig, hU, hD, hbs]

/-- Successful construction always yields a state with no ready samples, the full sample
count remaining, the stream at the first payload byte and the unpacker in its post-init
state. -/
theorem acmOpen_ok_inv {bytes : List Nat} {st : AcmState σ}
    (h : acmOpen U D bytes = Except.ok st) :
    st.samplesReady = 0 ∧ st.samplesLeft = st.samples ∧ st.streamPos = HEADER_SIZE ∧
    st.ustate = U.initState := by
  by_cases hs : le32 bytes 0 ≠ IP_ACM_SIG
  · simp [acmOpen, hs] at h
  · by_cases hneg :
      (2 ^ (le16 bytes 12 % 16) : Int) * (toInt16 (le16 bytes 12) >>> (4 : Nat)) < 0
    · simp [acmOpen, vectorResize, hs, hneg] at h
    · by_cases hu : U.initOk = false
      · simp [acmOpen, vectorResize, hs, hneg, hu] at h
      · by_cases hd : D.initOk = false
        · simp [acmOpen, vectorResize, hs, hneg, hu, hd] at h
        · simp [acmOpen, vectorResize, hs, hneg, hu, hd] at h
          rw [← h]
          exact ⟨rfl, rfl, rfl, rfl⟩

/-- Rewinding any state whose header-derived fields match those of a freshly constructed
state is observationally equivalent to that fresh state. -/
theorem obsEq_rewind {bytes : List Nat} {s0 s : AcmState σ}
    (h0 : acmOpen U D bytes = Except.ok s0) (hc : core s = core s0) :
    obsEq (rewind U s) s0 := by
  obtain ⟨hr0, hl0, hp0, hu0⟩ := acmOpen_ok_inv U D h0
  obtain ⟨e1, -, -, -, -, -⟩ := core_fields hc
  have hcr : core (rewind U s) = core s := rfl
  refine ⟨hcr.trans hc, ?_, ?_, ?_, ?_, ?_⟩
  · show s.samples = s0.samplesLeft
    rw [e1, hl0]
  · show (0 : Int) = s0.samplesReady
    rw [hr0]
  · show HEADER_SIZE = s0.streamPos
    rw [hp0]
  · show U.initState = s0.ustate
    rw [hu0]
  · intro hne
    exact absurd rfl hne

/-- Bytes whose first four bytes are not the magic constant (used as a witness input). -/
def bytesBad : List Nat := List.replicate 14 0

/-- A valid header whose packed geometry word is 0x0023, so the low nibble is 3 and the
word shifted right by 4 is 2 (used to separate the two nibble conventions). -/
def bytes1 : List Nat :=
  [0x97, 0x28, 0x03, 0x01, 5, 0, 0, 0, 2, 0, 0x22, 0x56, 0x23, 0x00]

/-- A valid header whose packed geometry word is 0x8000, i.e. with bit 15 set. -/
def bytes10 : List Nat :=
  [0x97, 0x28, 0x03, 0x01, 10, 0, 0, 0, 1, 0, 0x22, 0x56, 0x00, 0x80]

/-- The bytes9 stream fully drained: no ready samples and none left. -/
def stEnd : AcmState Nat :=
  { st9 with samplesLeft := 0 }

/-- The bytes9 stream right after a first refill, with a non-trivial reconstructed
block, used to witness the per-sample emission rule. -/
def st9ready : AcmState Nat :=
  { st9 with
    samplesReady := 32
    samplesLeft := 18
    block := (List.range 32).map (fun i => (i : Int) * 1000 - 9000)
    ustate := 1 }

theorem le16_lt (bs : List Nat) (off : Nat) : le16 bs off < 65536 := by
  have h1 : byteAt bs off < 256 := Nat.mod_lt _ (by norm_num)
  have h2 : byteAt bs (off + 1) < 256 := Nat.mod_lt _ (by norm_num)
  unfold le16
  omega

/-- C1, counterexample: for the valid header bytes1 with packed word 0x0023, the decoder
holds levels = 3 and subblocks = 2 with blockSize = 16, while the claim predicts
levels = word shifted right by 4 = 2, subblocks = word low nibble = 3 and hence
blockSize = 12; so the claim is false at this input (3 is not 2). -/
theorem claim1_counterexample :
    ((acmOpen unpAlways decId bytes1).map fun s => (s.levels, s.subblocks, s.blockSize))
      = Except.ok (3, 2, 16) ∧
    (le16 bytes1 12) >>> 4 = 2 ∧ (le16 bytes1 12) % 16 = 3 ∧
    ((2 : Int) ^ 2) * 3 = 12 ∧ (3 : Int) ≠ 2 ∧ (16 : Int) ≠ 12 :=
  ⟨rfl, rfl, rfl, rfl, by decide, by decide⟩

/-- C1 (amended): for every header whose signature matches, whose unpacker and decoder
initialize, and whose geometry is non-degenerate (the subblocks value is non-negative,
so the buffer resize succeeds and the header is actually parsed at construction),
construction succeeds and yields levels equal to the LOW nibble of the packed 16-bit
geometry word (word mod 16), subblocks equal to the word read as a signed int16 and
arithmetically shifted right by 4, blockSize = (1 shl levels) * subblocks computed from
those values, and the samples, channels and bitrate accessors equal to the corresponding
header fields (the 32-bit sample count reinterpreted as a signed int32, the 16-bit
channels and rate fields zero-extended). -/
theorem claim1_amended (bytes : List Nat) (hsig : le32 bytes 0 = IP_ACM_SIG)
    (hU : U.initOk = true) (hD : D.initOk = true)
    (hsb : 0 ≤ toInt16 (le16 bytes 12) >>> (4 : Nat)) :
    ∃ st, acmOpen U D bytes = Except.ok st ∧
      st.levels = ((le16 bytes 12 % 16 : Nat) : Int) ∧
      st.subblocks = toInt16 (le16 bytes 12) >>> (4 : Nat) ∧
      st.blockSize = (2 ^ (le16 bytes 12 % 16) : Int) * st.subblocks ∧
      st.samples = toInt32 (le32 bytes 4) ∧
      st.channels = ((le16 bytes 8 : Nat) : Int) ∧
      st.bitrate = ((le16 bytes 10 : Nat) : Int) :=
  ⟨_, acmOpen_ok_of U D bytes hsig hU hD hsb, rfl, rfl, rfl, rfl, rfl, rfl⟩

theorem claim1_witness :
    le32 bytes9 0 = IP_ACM_SIG ∧ 0 ≤ toInt16 (le16 bytes9 12) >>> (4 : Nat) ∧
    (∃ st, acmOpen unpAlways decId bytes9 = Except.ok st ∧
      st.levels = ((le16 bytes9 12 % 16 : Nat) : Int) ∧
      st.subblocks = toInt16 (le16 bytes9 12) >>> (4 : Nat) ∧
      st.blockSize = (2 ^ (le16 bytes9 12 % 16) : Int) * st.subblocks ∧
      st.samples = toInt32 (le32 bytes9 4) ∧
      st.channels = ((le16 bytes9 8 : Nat) : Int) ∧
      st.bitrate = ((le16 bytes9 10 : Nat) : Int)) :=
  ⟨by decide, by decide,
   claim1_amended unpAlways decId bytes9 (by decide) (by decide) (by decide) (by decide)⟩

/-- C2: a stream whose first four bytes are not the magic constant makes construction
fail with the signature format error — and only an error value is returned, so no
partial object state is observable — while a stream with a matching signature never
raises that format error. -/
theorem claim2 (bytes : List Nat) :
    (le32 bytes 0 ≠ IP_ACM_SIG →
      acmOpen U D bytes = Except.error "Not an ACM file - invalid signature") ∧
    (le32 bytes 0 = IP_ACM_SIG →
      acmOpen U D bytes ≠ Except.error "Not an ACM file - invalid signature") := by
  constructor
  · intro h
    simp [acmOpen, h]
  · intro h
    by_cases hneg :
        (2 ^ (le16 bytes 12 % 16) : Int) * (toInt16 (le16 bytes 12) >>> (4 : Nat)) < 0
    · simp only [acmOpen, vectorResize, h, hneg]
      simp
    · by_cases hu : U.initOk = false
      · simp only [acmOpen, vectorResize, h, hneg, hu]
        simp
      · by_cases hd : D.initOk = false
        · simp only [acmOpen, vectorResize, h, hneg, hu, hd]
          simp
        · simp only [acmOpen, vectorResize, h, hneg, hu, hd]
          simp

theorem claim2_witness :
    acmOpen unpAlways decId bytesBad = Except.error "Not an ACM file - invalid signature" ∧
    acmOpen unpAlways decId bytes9 ≠ Except.error "Not an ACM file - invalid signature" :=
  ⟨(claim2 unpAlways decId bytesBad).1 (by decide),
   (claim2 unpAlways decId bytes9).2 (by decide)⟩

/-- C3: in the block-refill step, when getOneBlock succeeds the new state runs
decodeData on the buffer that call produced, with subblocks as the unpack width, sets
samplesReady to min(blockSize, samplesLeft) and decrements samplesLeft by exactly that
amount (and rewinds the values cursor); when getOneBlock fails the step reports failure,
samplesReady and samplesLeft are unchanged, and a readSamples call on a drained state
produces no samples. -/
theorem claim3 (s : AcmState σ) :
    ((U.getOneBlock s.ustate s.streamPos).ok = true →
      makeNewSamples U D s = (true,
        { s with
          ustate := (U.getOneBlock s.ustate s.streamPos).state
          streamPos := (U.getOneBlock s.ustate s.streamPos).pos
          block := D.decodeData (U.getOneBlock s.ustate s.streamPos).buf s.subblocks
          valuesIdx := 0
          samplesReady := min s.blockSize s.samplesLeft
          samplesLeft := s.samplesLeft - min s.blockSize s.samplesLeft })) ∧
    ((U.getOneBlock s.ustate s.streamPos).ok = false →
      (makeNewSamples U D s).1 = false ∧
      (makeNewSamples U D s).2.samplesReady = s.samplesReady ∧
      (makeNewSamples U D s).2.samplesLeft = s.samplesLeft ∧
      (s.samplesReady = 0 → ∀ n, (readSamples U D n s).1 = [])) := by
  constructor
  · intro hok
    simp only [makeNewSamples, hok, if_true, ternary_min]
  · intro hok
    have hfl := makeNewSamples_flag U D s
    rw [hok] at hfl
    rcases hm : makeNewSamples U D s with ⟨b, s1⟩
    rw [hm] at hfl
    dsimp only at hfl
    subst hfl
    obtain ⟨-, hr, hl, -⟩ := makeNewSamples_false U D hm
    refine ⟨rfl, hr, hl, ?_⟩
    intro hrz n
    cases n with
    | zero => rw [readSamples_zero]
    | succ m =>
      by_cases h2 : s.samplesLeft = 0
      · rw [readSamples_succ_eos U D m s hrz h2]
      · rw [readSamples_succ_fail U D m hrz h2 hm]

theorem claim3_witness :
    ((unpAlways.getOneBlock st9.ustate st9.streamPos).ok = true ∧
      makeNewSamples unpAlways decId st9 = (true,
        { st9 with
          ustate := (unpAlways.getOneBlock st9.ustate st9.streamPos).state
          streamPos := (unpAlways.getOneBlock st9.ustate st9.streamPos).pos
          block := decId.decodeData (unpAlways.getOneBlock st9.ustate st9.streamPos).buf
            st9.subblocks
          valuesIdx := 0
          samplesReady := min st9.blockSize st9.samplesLeft
          samplesLeft := st9.samplesLeft - min st9.blockSize st9.samplesLeft })) ∧
    ((unpNever.getOneBlock st9.ustate st9.streamPos).ok = false ∧
      (makeNewSamples unpNever decId st9).1 = false ∧
      (makeNewSamples unpNever decId st9).2.samplesReady = st9.samplesReady ∧
      (makeNewSamples unpNever decId st9).2.samplesLeft = st9.samplesLeft ∧
      (st9.samplesReady = 0 → ∀ n, (readSamples unpNever decId n st9).1 = [])) :=
  ⟨⟨by decide, (claim3 unpAlways decId st9).1 (by decide)⟩,
   ⟨by decide, (claim3 unpNever decId st9).2 (by decide)⟩⟩

/-- C4: as long as no refill intervenes (the request does not exceed samplesReady),
every delivered sample is the corresponding reconstructed block-buffer slot,
arithmetically shifted right by levels bits and truncated to a signed 16-bit value, and
the slots are consumed in increasing buffer order from the values cursor. -/
theorem claim4 (s : AcmState σ) (k : Nat) (hk : (k : Int) ≤ s.samplesReady) :
    (readSamples U D k s).1 =
      (List.range k).map
        (fun i => toShort ((s.block.getD (s.valuesIdx + i) 0) >>> s.levels.toNat)) ∧
    (readSamples U D k s).2.valuesIdx = s.valuesIdx + k ∧
    (readSamples U D k s).2.samplesReady = s.samplesReady - k := by
  induction k generalizing s with
  | zero =>
    rw [readSamples_zero]
    simp
  | succ m ih =>
    have hr : ¬ s.samplesReady = 0 := by
      push_cast at hk
      omega
    rw [readSamples_succ_emit U D m s hr]
    have he1 : (emitOne s).2.samplesReady = s.samplesReady - 1 := rfl
    have hk' : ((m : Nat) : Int) ≤ (emitOne s).2.samplesReady := by
      rw [he1]
      push_cast at hk ⊢
      omega
    obtain ⟨ho, hi2, hr2⟩ := ih (emitOne s).2 hk'
    dsimp only
    refine ⟨?_, ?_, ?_⟩
    · rw [ho]
      have hb : (emitOne s).2.block = s.block := rfl
      have hi : (emitOne s).2.valuesIdx = s.valuesIdx + 1 := rfl
      have hlv : (emitOne s).2.levels = s.levels := rfl
      rw [hb, hi, hlv, List.range_succ_eq_map, List.map_cons, List.map_map]
      rw [List.cons_eq_cons]
      constructor
      · show toShort ((s.block.getD s.valuesIdx 0) >>> s.levels.toNat) = _
        rw [Nat.add_zero]
      · apply List.map_congr_left
        intro i _
        show toShort ((s.block.getD (s.valuesIdx + 1 + i) 0) >>> s.levels.toNat) = _
        have : s.valuesIdx + 1 + i = s.valuesIdx + Nat.succ i := by omega
        rw [this]
        rfl
    · have hi : (emitOne s).2.valuesIdx = s.valuesIdx + 1 := rfl
      rw [hi2, hi]
      omega
    · rw [hr2, he1]
      push_cast
      omega

theorem claim4_witness :
    ((2 : Nat) : Int) ≤ st9ready.samplesReady ∧
    (readSamples unpAlways decId 2 st9ready).1 =
      (List.range 2).map
        (fun i => toShort ((st9ready.block.getD (st9ready.valuesIdx + i) 0)
          >>> st9ready.levels.toNat)) ∧
    (readSamples unpAlways decId 2 st9ready).2.valuesIdx = st9ready.valuesIdx + 2 ∧
    (readSamples unpAlways decId 2 st9ready).2.samplesReady = st9ready.samplesReady - 2 :=
  ⟨by decide, claim4 unpAlways decId st9ready 2 (by decide)⟩

/-- C5: on any well-formed state (positive blockSize, non-negative counters, at most
samples outstanding — which holds for a freshly constructed stream), every readSamples
call keeps produced + samplesLeft within the declared total, keeps
samplesReady + samplesLeft at most samples, conserves produced + samplesReady +
samplesLeft exactly, preserves well-formedness (so the bounds hold across any sequence
of calls), and — when the payload is well formed, i.e. the unpacker never fails — a
request covering everything outstanding produces exactly that many samples, so decoding
to exhaustion yields exactly the declared total. -/
theorem claim5 (n : Nat) (s : AcmState σ) (hInv : Inv s)
    (hle : s.samplesReady + s.samplesLeft ≤ s.samples) :
    (((readSamples U D n s).1.length : Int) + (readSamples U D n s).2.samplesLeft
        ≤ s.samples) ∧
    ((readSamples U D n s).2.samplesReady + (readSamples U D n s).2.samplesLeft
        ≤ (readSamples U D n s).2.samples) ∧
    (((readSamples U D n s).1.length : Int) + (readSamples U D n s).2.samplesReady
        + (readSamples U D n s).2.samplesLeft = s.samplesReady + s.samplesLeft) ∧
    Inv (readSamples U D n s).2 ∧
    ((∀ u p, (U.getOneBlock u p).ok = true) →
      s.samplesReady + s.samplesLeft ≤ (n : Int) →
      ((readSamples U D n s).1.length : Int) = s.samplesReady + s.samplesLeft) := by
  have hcons := readSamples_conservation U D n s
  have hinv2 := readSamples_inv U D n s hInv
  have hsm : (readSamples U D n s).2.samples = s.samples :=
    (core_fields (readSamples_core U D n s)).1
  obtain ⟨-, hr2, hl2⟩ := hinv2
  refine ⟨by omega, by rw [hsm]; omega, hcons, readSamples_inv U D n s hInv, ?_⟩
  intro htot hn
  have hlen := readSamples_len_total U D n s hInv htot
  rw [hlen]
  omega

theorem claim5_witness :
    Inv st9 ∧ st9.samplesReady + st9.samplesLeft ≤ st9.samples ∧
    (((readSamples unpAlways decId 60 st9).1.length : Int)
        + (readSamples unpAlways decId 60 st9).2.samplesLeft ≤ st9.samples) :=
  ⟨⟨by decide, by decide, by decide⟩, by decide,
   (claim5 unpAlways decId 60 st9 ⟨by decide, by decide, by decide⟩ (by decide)).1⟩

/-- C6: rewinding from any reachable state (any state whose header-derived fields are
those of the freshly constructed state) puts the stream position exactly at the
post-header offset (byte 14), zeroes samplesReady, restores samplesLeft to the header's
total sample count, resets the adaptive unpacker state to its post-initialization
value (the decoder, per the spec, holds only per-block scratch state), and makes every
subsequent readSamples call produce exactly the output a freshly opened stream would. -/
theorem claim6 {bytes : List Nat} {s0 : AcmState σ} (s : AcmState σ)
    (h0 : acmOpen U D bytes = Except.ok s0) (hc : core s = core s0) :
    (rewind U s).streamPos = HEADER_SIZE ∧
    (rewind U s).samplesReady = 0 ∧
    (rewind U s).samplesLeft = s0.samples ∧
    (rewind U s).ustate = U.initState ∧
    ∀ n, (readSamples U D n (rewind U s)).1 = (readSamples U D n s0).1 := by
  obtain ⟨e1, -, -, -, -, -⟩ := core_fields hc
  refine ⟨rfl, rfl, e1, rfl, ?_⟩
  intro n
  exact (obsEq_readSamples U D n (obsEq_rewind U D h0 hc)).1

theorem claim6_witness :
    acmOpen unpAlways decId bytes9 = Except.ok st9 ∧ core st9ready = core st9 ∧
    ((rewind unpAlways st9ready).streamPos = HEADER_SIZE ∧
     (rewind unpAlways st9ready).samplesReady = 0 ∧
     (rewind unpAlways st9ready).samplesLeft = st9.samples ∧
     (rewind unpAlways st9ready).ustate = unpAlways.initState ∧
     ∀ n, (readSamples unpAlways decId n (rewind unpAlways st9ready)).1
        = (readSamples unpAlways decId n st9).1) :=
  ⟨rfl, rfl, @claim6 Nat unpAlways decId bytes9 st9 st9ready rfl rfl⟩

/-- C7: replay determinism — reading n samples from a freshly constructed stream,
rewinding the resulting state, and reading n samples again yields exactly the same
output sequence as the first pass. -/
theorem claim7 {bytes : List Nat} {s0 : AcmState σ}
    (h0 : acmOpen U D bytes = Except.ok s0) (n : Nat) :
    (readSamples U D n (rewind U (readSamples U D n s0).2)).1
      = (readSamples U D n s0).1 :=
  (obsEq_readSamples U D n (obsEq_rewind U D h0 (readSamples_core U D n s0))).1

theorem claim7_witness :
    (readSamples unpAlways decId 50
        (rewind unpAlways (readSamples unpAlways decId 50 st9).2)).1
      = (readSamples unpAlways decId 50 st9).1 :=
  claim7 unpAlways decId (rfl : acmOpen unpAlways decId bytes9 = Except.ok st9) 50

/-- C8: once samplesLeft is zero and the current block is drained (samplesReady zero),
every readSamples call returns no samples and leaves the whole state — counters, block
cursor, stream position and all — unchanged; being a total function, it raises nothing. -/
theorem claim8 (s : AcmState σ) (h1 : s.samplesReady = 0) (h2 : s.samplesLeft = 0)
    (n : Nat) : readSamples U D n s = ([], s) := by
  cases n with
  | zero => exact readSamples_zero U D s
  | succ m => exact readSamples_succ_eos U D m s h1 h2

theorem claim8_witness :
    stEnd.samplesReady = 0 ∧ stEnd.samplesLeft = 0 ∧
    readSamples unpAlways decId 7 stEnd = ([], stEnd) :=
  ⟨rfl, rfl, claim8 unpAlways decId stEnd rfl rfl 7⟩

/-- C9, counterexample: for the spec's concrete scenario (levels 3, subblocks 4,
blockSize 32, samples 50, well-formed payload) a single readSamples call for 50 samples
does produce 50 samples, but afterwards samplesReady is 0, not 14 as the claim states:
the second refill sets samplesReady to min(blockSize, samplesLeft) = 18 and all 18 are
consumed. -/
theorem claim9_counterexample :
    acmOpen unpAlways decId bytes9 = Except.ok st9 ∧
    (readSamples unpAlways decId 50 st9).1.length = 50 ∧
    (readSamples unpAlways decId 50 st9).2.samplesReady = 0 ∧
    ((0 : Int) = 14 → False) :=
  ⟨rfl, by decide, by decide, by decide⟩

/-- C9 (amended): in the concrete scenario (levels 3, subblocks 4, blockSize 32,
samples 50, payload that never fails), readSamples(buf, 50) produces exactly 50 samples
across exactly two block refills (the counting unpacker state ends at 2): the first
refill readies 32 samples which are all consumed, the second readies only
min(32, 18) = 18 which are all consumed, so afterwards samplesReady is 0 and
samplesLeft is 0, and the next call returns 0 samples reporting exhaustion without
changing the state. -/
theorem claim9_amended :
    acmOpen unpAlways decId bytes9 = Except.ok st9 ∧
    (readSamples unpAlways decId 32 st9).2.ustate = 1 ∧
    (readSamples unpAlways decId 32 st9).2.samplesReady = 0 ∧
    (readSamples unpAlways decId 32 st9).2.samplesLeft = 18 ∧
    (readSamples unpAlways decId 50 st9).1.length = 50 ∧
    (readSamples unpAlways decId 50 st9).2.ustate = 2 ∧
    (readSamples unpAlways decId 50 st9).2.samplesReady = 0 ∧
    (readSamples unpAlways decId 50 st9).2.samplesLeft = 0 ∧
    (readSamples unpAlways decId 1 (readSamples unpAlways decId 50 st9).2).1 = [] ∧
    (readSamples unpAlways decId 1 (readSamples unpAlways decId 50 st9).2).2
      = (readSamples unpAlways decId 50 st9).2 :=
  ⟨rfl, by decide, by decide, by decide, by decide, by decide, by decide, by decide,
   by decide, by decide⟩

/-- C10: the packed geometry word is read into a signed 16-bit integer and split with an
arithmetic right shift, so whenever bit 15 of the word is set the shifted value — which
the code assigns to subblocks — is negative and the derived
blockSize = (1 shl levels) * subblocks is non-positive; construction performs no range
or sign check on levels, subblocks or blockSize: it proceeds past the signature check
straight to the block-buffer resize with that non-positive size, and (for any unpacker
and decoder, initialized or not — neither is reached) what comes back is the resize's
own length_error, not any validation error of the constructor. -/
theorem claim10 (bytes : List Nat) (hsig : le32 bytes 0 = IP_ACM_SIG)
    (hbit : 32768 ≤ le16 bytes 12) :
    toInt16 (le16 bytes 12) >>> (4 : Nat) < 0 ∧
    (2 ^ (le16 bytes 12 % 16) : Int) * (toInt16 (le16 bytes 12) >>> (4 : Nat)) ≤ 0 ∧
    acmOpen U D bytes = Except.error "vector::resize - length_error" := by
  have hw : le16 bytes 12 < 65536 := le16_lt bytes 12
  have h16 : toInt16 (le16 bytes 12) < 0 := by
    unfold toInt16
    rw [Nat.mod_eq_of_lt hw, if_neg (by omega)]
    have hcast : ((le16 bytes 12 : Nat) : Int) < 65536 := by exact_mod_cast hw
    omega
  have hneg : toInt16 (le16 bytes 12) >>> (4 : Nat) < 0 := by
    rw [Int.shiftRight_eq_div_pow]
    omega
  have hbs : (2 ^ (le16 bytes 12 % 16) : Int) * (toInt16 (le16 bytes 12) >>> (4 : Nat)) < 0 :=
    mul_neg_of_pos_of_neg (pow_pos (by norm_num) _) hneg
  refine ⟨hneg, le_of_lt hbs, ?_⟩
  simp [acmOpen, vectorResize, hsig, hbs]

theorem claim10_witness :
    32768 ≤ le16 bytes10 12 ∧
    (toInt16 (le16 bytes10 12) >>> (4 : Nat) < 0 ∧
     (2 ^ (le16 bytes10 12 % 16) : Int) * (toInt16 (le16 bytes10 12) >>> (4 : Nat)) ≤ 0 ∧
     acmOpen unpNever decId bytes10 = Except.error "vector::resize - length_error") :=
  ⟨by decide, claim10 unpNever decId bytes10 (by decide) (by decide)⟩

end Acm
